import Mathlib

/-!
Shallow embedding of the `fetch_m3u8` crawler (`src/app.py`, `src/send_mst.py`)
and proofs about its specification.

Conventions of the embedding:
* Python strings are modelled as `String` / `List Char`.
* Python `None` / exceptions are modelled with `Option` / explicit outcome types.
* The filesystem pieces the program touches (the progress file, the output
  directory) are modelled as explicit state: the progress file is an
  `Option String` (its content, or `none` when absent), the output directory is
  the list of filenames it contains.
* Whitespace tests model the ASCII part of Python's `str.strip` / regex `\s`.
-/

namespace FetchM3u8

/-- ASCII whitespace, the fragment of Python `\s` / `str.strip` relevant here. -/
def isPySpace (c : Char) : Bool :=
  c = ' ' || c = '\t' || c = '\n' || c = '\r' || c = '\x0b' || c = '\x0c'

/-- Python `str.strip()` on a list of characters. -/
def pyStripL (l : List Char) : List Char :=
  ((l.dropWhile isPySpace).reverse.dropWhile isPySpace).reverse

/-- Python `str.strip()`. -/
def pyStrip (s : String) : String :=
  String.mk (pyStripL s.toList)

/-- The decimal digit character for `d < 10` (used to model Python `str(int)`). -/
def digitToChar (d : Nat) : Char :=
  match d with
  | 0 => '0' | 1 => '1' | 2 => '2' | 3 => '3' | 4 => '4'
  | 5 => '5' | 6 => '6' | 7 => '7' | 8 => '8' | _ => '9'

/-- Worker for `natDigitsRev`, structurally recursive on a fuel argument so
that concrete values reduce inside the kernel; `fuel ≥ n` suffices. -/
def natDigitsRevGo (fuel n : Nat) : List Char :=
  match fuel with
  | 0 => []
  | f + 1 => if n = 0 then [] else digitToChar (n % 10) :: natDigitsRevGo f (n / 10)

/-- Decimal digits of `n`, least significant first; `[]` for `0`. -/
def natDigitsRev (n : Nat) : List Char :=
  natDigitsRevGo n n

/-- Python `str(n)` for a non-negative integer, as a character list. -/
def pyStrL (n : Nat) : List Char :=
  if n = 0 then ['0'] else (natDigitsRev n).reverse

/-- Python `str(n)` for a non-negative integer. -/
def pyStr (n : Nat) : String :=
  String.mk (pyStrL n)

/-- Numeric value of a digit character. -/
def digitVal (c : Char) : Nat := c.toNat - 48

/-- Python `int(s)` restricted to the non-negative inputs the program writes:
a non-empty run of decimal digits.  Anything else raises in Python, modelled
as `none`. -/
def pyParseNat (l : List Char) : Option Nat :=
  if l ≠ [] ∧ l.all Char.isDigit then
    some (l.foldl (fun a c => 10 * a + digitVal c) 0)
  else none

/-! ### Progress tracker (`load_progress` / `save_progress`, app.py 191-207)

The progress file is modelled by its content: `none` when the file does not
exist, `some s` when it holds the text `s`. -/

/-- `load_progress()`: read the checkpoint file, return `1` when it is absent
or its (stripped) content does not parse as an integer. -/
def load_progress (fs : Option String) : Nat :=
  match fs with
  | none => 1
  | some s =>
    match pyParseNat (pyStripL s.toList) with
    | some n => n
    | none => 1

/-- `save_progress(last_id)`: overwrite the checkpoint file with `str(last_id)`.
The previous content is irrelevant; the write is modelled as succeeding. -/
def save_progress (last_id : Nat) (_fs : Option String) : Option String :=
  some (pyStr last_id)

/-! ### Media-URL regex (`extract_video_url`, app.py 66-78)

The pattern compiled at app.py:70 is `https?://[^\s"\x27<>]+?\.(?:m3u8|mp4)`
and the code calls `pattern.search(html)`, taking `match.group(0)` of the
leftmost match; the lazy `+?` makes the body as short as possible at that
leftmost starting position.  The functions below implement exactly that
search on character lists. -/

/-- A character admitted by the character class of the url pattern. -/
def urlChar (c : Char) : Bool :=
  !(isPySpace c) && c ≠ '"' && c ≠ '\x27' && c ≠ '<' && c ≠ '>'

/-- Match the tail `\.(?:m3u8|mp4)` at the front of `l`, returning the
consumed characters (the alternative `m3u8` is tried first, as in the
pattern). -/
def extTail (l : List Char) : Option (List Char) :=
  match l with
  | [] => none
  | c :: rest =>
    if c = '.' then
      if rest.take 4 = ['m', '3', 'u', '8'] then some ['.', 'm', '3', 'u', '8']
      else if rest.take 3 = ['m', 'p', '4'] then some ['.', 'm', 'p', '4']
      else none
    else none

/-- After at least one body character has been consumed, the lazy `+?` tries
the extension tail before consuming another `urlChar`. -/
def lazyBody (l : List Char) : Option (List Char) :=
  match extTail l with
  | some ext => some ext
  | none =>
    match l with
    | [] => none
    | c :: rest => if urlChar c then (lazyBody rest).map (c :: ·) else none

/-- The body `[^\s"\x27<>]+?\.(?:m3u8|mp4)`: one mandatory `urlChar`, then the
lazy continuation. -/
def bodyExt (l : List Char) : Option (List Char) :=
  match l with
  | [] => none
  | c :: rest => if urlChar c then (lazyBody rest).map (c :: ·) else none

/-- Try the whole pattern anchored at the front of `l` (greedy `s?`: `https`
is preferred over `http`). -/
def matchAt (l : List Char) : Option (List Char) :=
  if l.take 8 = "https://".toList then
    (bodyExt (l.drop 8)).map ("https://".toList ++ ·)
  else if l.take 7 = "http://".toList then
    (bodyExt (l.drop 7)).map ("http://".toList ++ ·)
  else none

/-- `pattern.search`: the match at the leftmost position where one exists. -/
def searchMedia (l : List Char) : Option (List Char) :=
  match l with
  | [] => none
  | _ :: rest =>
    match matchAt l with
    | some m => some m
    | none => searchMedia rest

/-- `extract_video_url(driver, max_presses=10)` (app.py 67-78).  Attempt `i`
presses a key, settles, and then reads the page source; `page i` is the
content observed by attempt `i`.  The first attempt whose content contains a
pattern match returns that match; when all attempts are exhausted the
function returns `None` (modelled as `none`). -/
def extractLoop (page : Nat → String) (i fuel : Nat) : Option String :=
  match fuel with
  | 0 => none
  | fuel + 1 =>
    match searchMedia (page i).toList with
    | some m => some (String.mk m)
    | none => extractLoop page (i + 1) fuel

/-- `extract_video_url` proper: ten attempts starting at attempt `0`. -/
def extract_video_url (page : Nat → String) (max_presses : Nat) : Option String :=
  extractLoop page 0 max_presses

/-! ### Episode count (`get_total_episodes`, app.py 40-63)

The select control is modelled as `none` when `find_element` raises (control
absent) and `some opts` with `opts` the option label texts otherwise.  The
pattern at app.py:54 is `(\d+)\s*-\s*(\d+)`; the code takes
`int(match.group(2))` of the leftmost match in each stripped label. -/

/-- Match `(\d+)\s*-\s*(\d+)` anchored at the front of `l`, returning the
value of the second group.  All three greedy pieces are determinate here:
no backtracking can rescue a failed possessive match because digits, `\s`
and `-` are pairwise disjoint character sets. -/
def rangeAt (l : List Char) : Option Nat :=
  let d1 := l.takeWhile Char.isDigit
  let r1 := l.dropWhile Char.isDigit
  if d1 = [] then none
  else
    match r1.dropWhile isPySpace with
    | '-' :: r2 =>
      let r3 := r2.dropWhile isPySpace
      let d2 := r3.takeWhile Char.isDigit
      if d2 = [] then none
      else some (d2.foldl (fun a c => 10 * a + digitVal c) 0)
    | _ => none

/-- `re.search` for the range pattern: leftmost position with a match. -/
def searchRange (l : List Char) : Option Nat :=
  match l with
  | [] => none
  | _ :: rest =>
    match rangeAt l with
    | some hi => some hi
    | none => searchRange rest

/-- `get_total_episodes(driver)` (app.py 40-63): fold the upper bounds of all
matching option labels with `if upper > max_ep`, starting from 0; `0` when
the control is absent (the `except` branch) or the option list is empty. -/
def get_total_episodes (control : Option (List String)) : Nat :=
  match control with
  | none => 0
  | some opts =>
    opts.foldl
      (fun max_ep text =>
        match searchRange (pyStripL text.toList) with
        | some upper => if upper > max_ep then upper else max_ep
        | none => max_ep)
      0

/-! ### Page validation and per-anime extraction (`extract_anime_urls`, app.py 128-187)

The browser session is external; what the function observes of it is: whether
the 30-unit wait for `body` succeeded, the text of `.ep-title` (absent when
the 10-unit wait or the lookup raised), the raw page source, and the option
labels of the episode select control. -/

/-- Observable state of the rendered page for one identifier. -/
structure AnimePage where
  bodyLoads : Bool
  epTitle : Option String
  content : String
  control : Option (List String)

/-- `TESTING_FLAG` (app.py 26): capture debug data on failure.  `False` in the
source. -/
def TESTING_FLAG : Bool := false

/-- `fetch_episode_threadsafe` (app.py 107-124), at the value level: given the
result of `extract_video_url` for episode `ep`, format the entry string, or
return `None` when no URL was found (or the episode raised). -/
def fetch_episode_threadsafe (ep : Nat) (vurl : Option String) : Option String :=
  match vurl with
  | some v => some ("ep_num_" ++ pyStr ep ++ "_url_data_" ++ v)
  | none => none

/-- The validation verdict of app.py 130-157: valid iff the body wait
succeeded and `.ep-title` exists with non-empty stripped text.  (The code
performs no check of the page content itself.) -/
def page_valid (pg : AnimePage) : Bool :=
  pg.bodyLoads && pyStrip (pg.epTitle.getD "") ≠ ""

/-- `extract_anime_urls` (app.py 128-187).  `fetch ep` is the video URL that
episode `ep`'s fetch resolves (or `none`); `completion` is the order in which
`as_completed` yields the episode futures, a permutation of
`1 .. total_eps` for a faithful run.  Returns the Python return value
(`none` for `None`) paired with the reasons passed to `save_debug_snapshot`,
in order. -/
def extract_anime_urls (testing : Bool) (pg : AnimePage)
    (fetch : Nat → Option String) (completion : List Nat) :
    Option (List String) × List String :=
  if pg.bodyLoads = false then
    (none, if testing then ["Page load failed"] else [])
  else
    let title_text := pyStrip (pg.epTitle.getD "")
    if title_text = "" then
      (none, if testing then ["No .ep-title element or empty title"] else [])
    else
      let total_eps := get_total_episodes pg.control
      if total_eps = 0 then
        (none, if testing then ["No episode dropdown found"] else [])
      else
        (some (completion.filterMap (fun ep => fetch_episode_threadsafe ep (fetch ep))), [])

/-- `",".join(episode_data)` (app.py 239). -/
def joinEntries (entries : List String) : String :=
  String.intercalate "," entries

/-! ### Not-found signature (spec side of claim C4)

Modelled from the spec: "the content does not match a not-found signature
(literal marker or case-insensitive `not found` text)".  The code under
`src/` contains no such test; the predicate below renders the spec's words so
the claim can be compared against the code's validator. -/

/-- ASCII lowercasing, the relevant fragment of Python `str.lower()`. -/
def toLowerAscii (c : Char) : Char :=
  if 'A' ≤ c ∧ c ≤ 'Z' then Char.ofNat (c.toNat + 32) else c

/-- `l` starts with `p`. -/
def listStartsWith : List Char → List Char → Bool
  | _, [] => true
  | [], _ :: _ => false
  | a :: s, b :: p => a = b && listStartsWith s p

/-- `needle` occurs as a contiguous substring of `hay`. -/
def listContains (hay needle : List Char) : Bool :=
  listStartsWith hay needle ||
    match hay with
    | [] => false
    | _ :: t => listContains t needle

/-- `l` ends with `suffix`. -/
def listEndsWith (l suffix : List Char) : Bool :=
  listStartsWith l.reverse suffix.reverse

/-- Modelled from the spec: a case-insensitive occurrence of "not found" in
the rendered content. -/
def containsNotFoundSignature (content : String) : Bool :=
  listContains (content.toList.map toLowerAscii) "not found".toList

/-! ### Artifact writer (app.py 248-257)

The output directory is modelled as the list of filenames it contains. -/

/-- The filename `f"anime_{anime_id}_{elapsed_label}.bin"` (app.py 248). -/
def artifactName (anime_id : Nat) (label : List Char) : List Char :=
  "anime_".toList ++ pyStrL anime_id ++ ['_'] ++ label ++ ".bin".toList

/-- The deletion test of app.py 252:
`f.startswith(f"anime_{anime_id}_") and f.endswith(".bin")`. -/
def matchesArtifactKey (anime_id : Nat) (f : List Char) : Bool :=
  listStartsWith f ("anime_".toList ++ pyStrL anime_id ++ ['_']) &&
    listEndsWith f ".bin".toList

/-- app.py 248-257: first delete every file in the directory keyed by
`anime_id`, then write the new artifact. -/
def writeArtifact (dir : List (List Char)) (anime_id : Nat) (label : List Char) :
    List (List Char) :=
  dir.filter (fun f => !(matchesArtifactKey anime_id f)) ++ [artifactName anime_id label]

/-! ### Run orchestrator (`main`, app.py 211-292) and the startup notification

`msg_fun` (send_mst.py 4-30) raises `ValueError` when the environment variable
`KEYS` is absent; the call at app.py 219 happens before the `try` at app.py
224, so such a failure ends the process before any checkpoint handling
exists.  The per-identifier loop body (app.py 227-276) is abstracted to its
control-flow outcome. -/

/-- `msg_fun(message)`: `Except.error` models the uncaught `ValueError` when
`KEYS` is unset (send_mst.py 11-13); the best-effort send itself never
raises into the caller beyond that. -/
def msg_fun (keysPresent : Bool) : Except Unit Unit :=
  if keysPresent then Except.ok () else Except.error ()

/-- Control-flow outcome of one identifier's iteration:

* `completes data label` — the body ran to its end; `data` is what
  `extract_anime_urls` returned and `label` the elapsed-time label used in
  the artifact filename;
* `raises` — an exception was raised in the body and caught by the
  `except` at app.py 269, which still writes the checkpoint;
* `fatal` — an exception escaped the per-identifier handler (e.g. a
  `KeyboardInterrupt`), ending the loop; the outer handler and the `finally`
  at app.py 285 still run. -/
inductive IdEvent where
  | completes (data : Option (List String)) (label : List Char)
  | raises
  | fatal
deriving DecidableEq

/-- The loop of app.py 227-276.  `cur` is `current_id` on entry, `id` the
next identifier to process.  Returns `current_id` at loop exit, the
checkpoint ids saved inside the loop in order, and the final output
directory. -/
def runLoop : Nat → Nat → List IdEvent → List (List Char) →
    Nat × List Nat × List (List Char)
  | cur, _, [], dir => (cur, [], dir)
  | _, id, IdEvent.fatal :: _, dir => (id, [], dir)
  | _, id, IdEvent.raises :: rest, dir =>
    let r := runLoop id (id + 1) rest dir
    (r.1, id :: r.2.1, r.2.2)
  | _, id, IdEvent.completes data label :: rest, dir =>
    let dir2 :=
      match data with
      | none => dir
      | some [] => dir
      | some (_ :: _) => writeArtifact dir id label
    let r := runLoop id (id + 1) rest dir2
    (r.1, id :: r.2.1, r.2.2)

/-- Observable outcome of one `main()` run. -/
structure RunResult where
  cur : Nat
  saves : List Nat
  dir : List (List Char)
  closed : Bool
deriving DecidableEq

/-- `main` (app.py 211-292).  `keysPresent` models the `KEYS` environment
variable read by the startup notification at app.py 219; `driverInit`
models whether `initialize_driver()` succeeds; `start` is `START_ID`;
`events` are the outcomes of identifiers `start, start+1, ...`.

When the startup notification raises (app.py 219 is before the `try`), the
process dies with no checkpoint written and no session.  Otherwise the
`finally` at app.py 285-292 always runs: it saves `current_id` and quits the
driver when one exists. -/
def main_run (keysPresent driverInit : Bool) (start : Nat) (events : List IdEvent) :
    RunResult :=
  match msg_fun keysPresent with
  | Except.error _ => { cur := start, saves := [], dir := [], closed := false }
  | Except.ok _ =>
    if driverInit then
      let r := runLoop start start events []
      { cur := r.1, saves := r.2.1 ++ [r.1], dir := r.2.2, closed := true }
    else
      { cur := start, saves := [start], dir := [], closed := false }

/-- An event the loop survives (anything the inner `except` handles). -/
def notFatal : IdEvent → Bool
  | IdEvent.fatal => false
  | IdEvent.raises => true
  | IdEvent.completes _ _ => true

/-- `current_id` when the loop exits, as a function of where the first fatal
event (if any) sits. -/
def loopExitId (cur id : Nat) (events : List IdEvent) : Nat :=
  if events.length = 0 then cur
  else if (events.takeWhile notFatal).length < events.length then
    id + (events.takeWhile notFatal).length
  else id + events.length - 1

/-! ### Serialized session access (`driver_lock`, app.py 105-124)

`fetch_episode_threadsafe` wraps its whole body — navigate (app.py 112),
settle (113), extract (114) — in `with driver_lock:`; the pool at app.py
175-176 submits up to 10 such tasks against the one shared driver.  The model
is an interleaving semantics: each episode's task runs the program
acquire; navigate; settle; extract; release against one lock, and any
interleaving the scheduler can produce is a `LockRun`.  The session-access
log records the navigate/settle/extract events. -/

inductive SessionAct where
  | navigate
  | settle
  | extract
deriving DecidableEq

/-- One entry of the session-access log: which episode's task did what. -/
abbrev SessionEvent := Nat × SessionAct

/-- `pc t`: 0 = before `with driver_lock`, 1 = lock acquired, 2 = after
navigate, 3 = after settle, 4 = after extract (lock still held),
5 = released. -/
structure LockState where
  owner : Option Nat
  pc : Nat → Nat

def initLock : LockState := { owner := none, pc := fun _ => 0 }

def setPc (pc : Nat → Nat) (t k : Nat) : Nat → Nat :=
  fun u => if u = t then k else pc u

/-- One scheduler step; the label is what it appends to the session log. -/
inductive LockStep : LockState → List SessionEvent → LockState → Prop where
  | acquire (s : LockState) (t : Nat) (h : s.pc t = 0) (hl : s.owner = none) :
      LockStep s [] { owner := some t, pc := setPc s.pc t 1 }
  | navigate (s : LockState) (t : Nat) (h : s.pc t = 1) (hl : s.owner = some t) :
      LockStep s [(t, SessionAct.navigate)] { owner := s.owner, pc := setPc s.pc t 2 }
  | settle (s : LockState) (t : Nat) (h : s.pc t = 2) (hl : s.owner = some t) :
      LockStep s [(t, SessionAct.settle)] { owner := s.owner, pc := setPc s.pc t 3 }
  | extract (s : LockState) (t : Nat) (h : s.pc t = 3) (hl : s.owner = some t) :
      LockStep s [(t, SessionAct.extract)] { owner := s.owner, pc := setPc s.pc t 4 }
  | release (s : LockState) (t : Nat) (h : s.pc t = 4) (hl : s.owner = some t) :
      LockStep s [] { owner := none, pc := setPc s.pc t 5 }

/-- Reachability from the initial state, carrying the accumulated log. -/
inductive LockRun : LockState → List SessionEvent → Prop where
  | init : LockRun initLock []
  | step (s s' : LockState) (tr ev : List SessionEvent) :
      LockRun s tr → LockStep s ev s' → LockRun s' (tr ++ ev)

/-- The log entries of task `t`. -/
def eventsOf (tr : List SessionEvent) (t : Nat) : List SessionEvent :=
  tr.filter (fun e => e.1 == t)

/-- The log entries task `t` has produced when its pc is `k`. -/
def stint (t k : Nat) : List SessionEvent :=
  if k ≤ 1 then []
  else if k = 2 then [(t, SessionAct.navigate)]
  else if k = 3 then [(t, SessionAct.navigate), (t, SessionAct.settle)]
  else [(t, SessionAct.navigate), (t, SessionAct.settle), (t, SessionAct.extract)]

/-- No event of another task sits between a task's navigate and its extract:
the per-episode navigate-settle-extract block is contiguous in the log. -/
def NoForeign (tr : List SessionEvent) : Prop :=
  ∀ t l1 l2 l3,
    tr = l1 ++ (t, SessionAct.navigate) :: l2 ++ (t, SessionAct.extract) :: l3 →
    l2.all (fun e => e.1 == t) = true

/-- Inductive invariant: lock/pc coherence, per-task log characterization,
and: the current owner's events since its navigate form a suffix of the
log. -/
def LockInv (s : LockState) (tr : List SessionEvent) : Prop :=
  (∀ t, (1 ≤ s.pc t ∧ s.pc t ≤ 4) ↔ s.owner = some t) ∧
  (∀ t, eventsOf tr t = stint t (s.pc t)) ∧
  (∀ t, s.owner = some t → 2 ≤ s.pc t →
    ∃ l1 l2, tr = l1 ++ (t, SessionAct.navigate) :: l2 ∧ ∀ e ∈ l2, e.1 = t)

/-- Concrete page for the C4 counterexample: the rendered content carries a
case-insensitive "not found" text, yet the page loads and `.ep-title` has
non-empty text, so the code's validator (app.py 130-157) accepts it. -/
def c4Page : AnimePage :=
  { bodyLoads := true,
    epTitle := some "Some Anime Title",
    content := "Oops, episode Not Found on this mirror",
    control := some ["EPS 1-12"] }

/-- Concrete page for the C8 counterexample: navigation/wait fails. -/
def c8Page : AnimePage :=
  { bodyLoads := false, epTitle := none, content := "", control := none }

/-! ## Lemmas and claim theorems -/

theorem natDigitsRevGo_congr :
    ∀ f1 n f2, n ≤ f1 → n ≤ f2 → natDigitsRevGo f1 n = natDigitsRevGo f2 n := by
  intro f1
  induction f1 with
  | zero =>
    intro n f2 h1 _
    have hn : n = 0 := Nat.le_zero.mp h1
    subst hn
    cases f2 <;> simp [natDigitsRevGo]
  | succ f ih =>
    intro n f2 h1 h2
    by_cases hn : n = 0
    · subst hn
      cases f2 <;> simp [natDigitsRevGo]
    · cases f2 with
      | zero => omega
      | succ g =>
        simp only [natDigitsRevGo, if_neg hn]
        have hd : n / 10 < n := Nat.div_lt_self (Nat.pos_of_ne_zero hn) (by decide)
        rw [ih (n / 10) g (by omega) (by omega)]

/-- The recursion `natDigitsRev` satisfies. -/
theorem natDigitsRev_eq (n : Nat) :
    natDigitsRev n = if n = 0 then [] else digitToChar (n % 10) :: natDigitsRev (n / 10) := by
  by_cases hn : n = 0
  · subst hn; rfl
  · cases n with
    | zero => exact absurd rfl hn
    | succ m =>
      rw [natDigitsRev, natDigitsRevGo, if_neg hn, if_neg hn, natDigitsRev]
      have hd : (m + 1) / 10 < m + 1 := Nat.div_lt_self (Nat.succ_pos m) (by decide)
      rw [natDigitsRevGo_congr m ((m + 1) / 10) ((m + 1) / 10) (by omega) (le_refl _)]

/-! Round-trip lemmas for the decimal rendering. -/

theorem digitToChar_spec (d : Nat) (hd : d < 10) :
    (digitToChar d).isDigit = true ∧ digitVal (digitToChar d) = d := by
  interval_cases d <;> exact ⟨rfl, rfl⟩

theorem natDigitsRev_all_digit (n : Nat) :
    (natDigitsRev n).all Char.isDigit = true := by
  induction n using Nat.strong_induction_on with
  | _ n ih =>
    rw [natDigitsRev_eq]
    split
    · rfl
    · rename_i h
      rw [List.all_cons, (digitToChar_spec (n % 10) (Nat.mod_lt _ (by decide))).1,
        ih (n / 10) (Nat.div_lt_self (Nat.pos_of_ne_zero h) (by decide))]
      rfl

theorem foldl_digits_rev (n : Nat) :
    ∀ a : Nat, (natDigitsRev n).reverse.foldl (fun x c => 10 * x + digitVal c) a
      = a * 10 ^ (natDigitsRev n).length + n := by
  induction n using Nat.strong_induction_on with
  | _ n ih =>
    intro a
    rw [natDigitsRev_eq]
    split
    · rename_i h; subst h; simp
    · rename_i h
      rw [List.reverse_cons, List.foldl_append]
      rw [ih (n / 10) (Nat.div_lt_self (Nat.pos_of_ne_zero h) (by decide))]
      simp only [List.foldl_cons, List.foldl_nil, List.length_cons]
      rw [(digitToChar_spec (n % 10) (Nat.mod_lt _ (by decide))).2]
      have hdm : 10 * (n / 10) + n % 10 = n := Nat.div_add_mod n 10
      rw [pow_succ]
      ring_nf
      omega

theorem pyStrL_all_digit (n : Nat) : (pyStrL n).all Char.isDigit = true := by
  rw [pyStrL]
  split
  · rfl
  · rw [List.all_reverse]; exact natDigitsRev_all_digit n

theorem pyStrL_ne_nil (n : Nat) : pyStrL n ≠ [] := by
  rw [pyStrL]
  split
  · simp
  · rename_i h
    rw [natDigitsRev_eq]
    simp [h]

theorem pyParseNat_pyStrL (n : Nat) : pyParseNat (pyStrL n) = some n := by
  rw [pyParseNat, if_pos ⟨pyStrL_ne_nil n, pyStrL_all_digit n⟩]
  congr 1
  rw [pyStrL]
  split
  · rename_i h; subst h; rfl
  · rw [foldl_digits_rev]; simp

theorem pyStrL_injective : Function.Injective pyStrL := by
  intro m n h
  have := pyParseNat_pyStrL m
  rw [h, pyParseNat_pyStrL] at this
  exact (Option.some_injective _ this).symm

theorem digit_not_space (c : Char) (hd : c.isDigit = true) : isPySpace c = false := by
  have hne : c ≠ ' ' ∧ c ≠ '\t' ∧ c ≠ '\n' ∧ c ≠ '\r' ∧ c ≠ '\x0b' ∧ c ≠ '\x0c' := by
    refine ⟨?_, ?_, ?_, ?_, ?_, ?_⟩ <;> rintro rfl <;> exact absurd hd (by decide)
  rw [isPySpace]
  simp [hne.1, hne.2.1, hne.2.2.1, hne.2.2.2.1, hne.2.2.2.2.1, hne.2.2.2.2.2]

theorem pyStripL_of_all_digit (l : List Char) (h : l.all Char.isDigit = true) :
    pyStripL l = l := by
  have hnot : ∀ c ∈ l, isPySpace c = false := fun c hc =>
    digit_not_space c (List.all_eq_true.mp h c hc)
  have h1 : l.dropWhile isPySpace = l := by
    cases l with
    | nil => rfl
    | cons a t =>
      rw [List.dropWhile_cons, hnot a (List.mem_cons_self a t)]
      simp
  rw [pyStripL, h1]
  have h2 : l.reverse.dropWhile isPySpace = l.reverse := by
    cases hr : l.reverse with
    | nil => rfl
    | cons a t =>
      rw [List.dropWhile_cons]
      have ha : a ∈ l := by
        rw [← List.mem_reverse, hr]
        exact List.mem_cons_self a t
      rw [hnot a ha]
      simp
  rw [h2, List.reverse_reverse]

theorem extractLoop_exhaust (page : Nat → String) :
    ∀ fuel i, (∀ j, i ≤ j → j < i + fuel → searchMedia (page j).toList = none) →
      extractLoop page i fuel = none := by
  intro fuel
  induction fuel with
  | zero => intro i _; rfl
  | succ n ih =>
    intro i h
    have h0 : searchMedia (page i).toList = none := h i (le_refl i) (by omega)
    simp only [extractLoop, h0]
    exact ih (i + 1) (fun j h1 h2 => h j (by omega) (by omega))

theorem extractLoop_found (page : Nat → String) :
    ∀ fuel i n m, i ≤ n → n < i + fuel →
      (∀ j, i ≤ j → j < n → searchMedia (page j).toList = none) →
      searchMedia (page n).toList = some m →
      extractLoop page i fuel = some (String.mk m) := by
  intro fuel
  induction fuel with
  | zero => intro i n m h1 h2 _ _; omega
  | succ k ih =>
    intro i n m h1 h2 hb hm
    by_cases hin : n = i
    · subst hin
      simp only [extractLoop, hm]
    · have h0 : searchMedia (page i).toList = none := hb i (le_refl i) (by omega)
      simp only [extractLoop, h0]
      exact ih (i + 1) n m (by omega) (by omega) (fun j ha hc => hb j (by omega) hc) hm

theorem extTail_eq (l e : List Char) (h : extTail l = some e) :
    (∃ q, l = e ++ q) ∧ (e = ['.', 'm', '3', 'u', '8'] ∨ e = ['.', 'm', 'p', '4']) := by
  cases l with
  | nil => exact absurd h (by rw [extTail]; simp)
  | cons c rest =>
    rw [extTail] at h
    split_ifs at h with hc h1 h2
    · cases h
      subst hc
      refine ⟨⟨rest.drop 4, ?_⟩, Or.inl rfl⟩
      have ht := List.take_append_drop 4 rest
      rw [h1] at ht
      rw [← ht]
      rfl
    · cases h
      subst hc
      refine ⟨⟨rest.drop 3, ?_⟩, Or.inr rfl⟩
      have ht := List.take_append_drop 3 rest
      rw [h2] at ht
      rw [← ht]
      rfl

theorem lazyBody_eq (l m : List Char) (h : lazyBody l = some m) :
    (∃ q, l = m ++ q) ∧
      (∃ b, m = b ++ ['.', 'm', '3', 'u', '8'] ∨ m = b ++ ['.', 'm', 'p', '4']) := by
  induction l generalizing m with
  | nil =>
    rw [lazyBody] at h
    simp [extTail] at h
  | cons c rest ih =>
    rw [lazyBody] at h
    rcases he : extTail (c :: rest) with _ | e
    · simp only [he] at h
      by_cases hu : urlChar c = true
      · rw [if_pos hu] at h
        rcases Option.map_eq_some'.mp h with ⟨m1, hm1, hm⟩
        rcases ih m1 hm1 with ⟨⟨q, hq⟩, ⟨b, hb⟩⟩
        subst hm
        refine ⟨⟨q, by simp [hq]⟩, ?_⟩
        rcases hb with hb | hb
        · exact ⟨c :: b, Or.inl (by simp [hb])⟩
        · exact ⟨c :: b, Or.inr (by simp [hb])⟩
      · rw [if_neg hu] at h
        exact absurd h (by simp)
    · simp only [he] at h
      cases h
      rcases extTail_eq _ _ he with ⟨⟨q, hq⟩, hsh⟩
      refine ⟨⟨q, hq⟩, ⟨[], ?_⟩⟩
      rcases hsh with hsh | hsh
      · exact Or.inl (by simp [hsh])
      · exact Or.inr (by simp [hsh])

theorem bodyExt_eq (l m : List Char) (h : bodyExt l = some m) :
    (∃ q, l = m ++ q) ∧
      (∃ b, m = b ++ ['.', 'm', '3', 'u', '8'] ∨ m = b ++ ['.', 'm', 'p', '4']) := by
  cases l with
  | nil => exact absurd h (by rw [bodyExt]; simp)
  | cons c rest =>
    rw [bodyExt] at h
    by_cases hu : urlChar c = true
    · rw [if_pos hu] at h
      rcases Option.map_eq_some'.mp h with ⟨m1, hm1, hm⟩
      rcases lazyBody_eq _ _ hm1 with ⟨⟨q, hq⟩, ⟨b, hb⟩⟩
      subst hm
      refine ⟨⟨q, by simp [hq]⟩, ?_⟩
      rcases hb with hb | hb
      · exact ⟨c :: b, Or.inl (by simp [hb])⟩
      · exact ⟨c :: b, Or.inr (by simp [hb])⟩
    · rw [if_neg hu] at h
      exact absurd h (by simp)

theorem matchAt_eq (l m : List Char) (h : matchAt l = some m) :
    (∃ q, l = m ++ q) ∧
      (∃ b, m = "https://".toList ++ b ∨ m = "http://".toList ++ b) ∧
      (∃ b, m = b ++ ['.', 'm', '3', 'u', '8'] ∨ m = b ++ ['.', 'm', 'p', '4']) := by
  rw [matchAt] at h
  split_ifs at h with h1 h2
  · rcases Option.map_eq_some'.mp h with ⟨m1, hm1, hm⟩
    rcases bodyExt_eq _ _ hm1 with ⟨⟨q, hq⟩, ⟨b, hb⟩⟩
    subst hm
    refine ⟨⟨q, ?_⟩, ⟨m1, Or.inl rfl⟩, ?_⟩
    · have ht := List.take_append_drop 8 l
      rw [h1] at ht
      rw [← ht, hq]
      simp
    · rcases hb with hb | hb
      · exact ⟨"https://".toList ++ b, Or.inl (by simp [hb])⟩
      · exact ⟨"https://".toList ++ b, Or.inr (by simp [hb])⟩
  · rcases Option.map_eq_some'.mp h with ⟨m1, hm1, hm⟩
    rcases bodyExt_eq _ _ hm1 with ⟨⟨q, hq⟩, ⟨b, hb⟩⟩
    subst hm
    refine ⟨⟨q, ?_⟩, ⟨m1, Or.inr rfl⟩, ?_⟩
    · have ht := List.take_append_drop 7 l
      rw [h2] at ht
      rw [← ht, hq]
      simp
    · rcases hb with hb | hb
      · exact ⟨"http://".toList ++ b, Or.inl (by simp [hb])⟩
      · exact ⟨"http://".toList ++ b, Or.inr (by simp [hb])⟩

/-- Whatever `searchMedia` returns occurs in the content and has the shape of
the media-URL pattern: an `http(s)://` scheme and an `.m3u8`/`.mp4` tail. -/
theorem searchMedia_spec (l m : List Char) (h : searchMedia l = some m) :
    (∃ p q, l = p ++ m ++ q) ∧
      (∃ b, m = "https://".toList ++ b ∨ m = "http://".toList ++ b) ∧
      (∃ b, m = b ++ ['.', 'm', '3', 'u', '8'] ∨ m = b ++ ['.', 'm', 'p', '4']) := by
  induction l with
  | nil => exact absurd h (by rw [searchMedia]; simp)
  | cons c rest ih =>
    rw [searchMedia] at h
    rcases hm : matchAt (c :: rest) with _ | m1
    · simp only [hm] at h
      rcases ih h with ⟨⟨p, q, hpq⟩, hrest⟩
      exact ⟨⟨c :: p, q, by simp [hpq]⟩, hrest⟩
    · simp only [hm] at h
      cases h
      rcases matchAt_eq _ _ hm with ⟨⟨q, hq⟩, hrest⟩
      exact ⟨⟨[], q, by simp [hq]⟩, hrest⟩

theorem listStartsWith_append_self (x y : List Char) :
    listStartsWith (x ++ y) x = true := by
  induction x with
  | nil => cases y <;> rfl
  | cons a s ih => simp [listStartsWith, ih]

theorem listStartsWith_cancel (p x y : List Char) :
    listStartsWith (p ++ x) (p ++ y) = listStartsWith x y := by
  induction p with
  | nil => rfl
  | cons a s ih => simp [listStartsWith, ih]

theorem matchesArtifactKey_self (anime_id : Nat) (label : List Char) :
    matchesArtifactKey anime_id (artifactName anime_id label) = true := by
  rw [matchesArtifactKey, artifactName, listEndsWith, Bool.and_eq_true]
  constructor
  · have h1 : "anime_".toList ++ pyStrL anime_id ++ ['_'] ++ label ++ ".bin".toList
        = ("anime_".toList ++ pyStrL anime_id ++ ['_']) ++ (label ++ ".bin".toList) := by
      simp
    rw [h1, listStartsWith_append_self]
  · have h2 : ("anime_".toList ++ pyStrL anime_id ++ ['_'] ++ label ++ ".bin".toList).reverse
        = ".bin".toList.reverse ++
          (label.reverse ++ (['_'] ++ (pyStrL anime_id).reverse ++ "anime_".toList.reverse)) := by
      simp
    rw [h2, listStartsWith_append_self]

/-- A decimal-digit run followed by `_` determines the digit run: if
`d2 ++ '_' :: r` starts with `d1 ++ ['_']` and both runs are digits, the runs
are equal ('_' is not a digit). -/
theorem digit_run_prefix (d1 : List Char) :
    ∀ d2 r, d1.all Char.isDigit = true → d2.all Char.isDigit = true →
      listStartsWith (d2 ++ '_' :: r) (d1 ++ ['_']) = true → d1 = d2 := by
  induction d1 with
  | nil =>
    intro d2 r _ hd2 hs
    cases d2 with
    | nil => rfl
    | cons b t =>
      simp only [List.nil_append, List.cons_append, listStartsWith,
        Bool.and_eq_true, decide_eq_true_eq] at hs
      obtain ⟨hb1, _⟩ := hs
      subst hb1
      have hb := List.all_eq_true.mp hd2 _ (List.mem_cons_self _ t)
      exact absurd hb (by decide)
  | cons a s ih =>
    intro d2 r hd1 hd2 hs
    cases d2 with
    | nil =>
      simp only [List.cons_append, List.nil_append, listStartsWith,
        Bool.and_eq_true, decide_eq_true_eq] at hs
      obtain ⟨ha1, _⟩ := hs
      have ha := List.all_eq_true.mp hd1 a (List.mem_cons_self a s)
      rw [← ha1] at ha
      exact absurd ha (by decide)
    | cons b t =>
      simp only [List.cons_append, listStartsWith, Bool.and_eq_true,
        decide_eq_true_eq] at hs
      obtain ⟨hba, hrest⟩ := hs
      subst hba
      have hd1' : s.all Char.isDigit = true := by
        rw [List.all_cons, Bool.and_eq_true] at hd1
        exact hd1.2
      have hd2' : t.all Char.isDigit = true := by
        rw [List.all_cons, Bool.and_eq_true] at hd2
        exact hd2.2
      rw [ih t r hd1' hd2' hrest]

/-- The deletion test for identifier `i` never matches an artifact filename
of a different identifier `j`. -/
theorem matchesArtifactKey_other (i j : Nat) (label : List Char) (hij : i ≠ j) :
    matchesArtifactKey i (artifactName j label) = false := by
  by_contra hne
  rw [Bool.not_eq_false, matchesArtifactKey, artifactName, Bool.and_eq_true] at hne
  have hs := hne.1
  have h1 : "anime_".toList ++ pyStrL j ++ ['_'] ++ label ++ ".bin".toList
      = "anime_".toList ++ (pyStrL j ++ '_' :: (label ++ ".bin".toList)) := by
    simp
  have h2 : "anime_".toList ++ pyStrL i ++ ['_']
      = "anime_".toList ++ (pyStrL i ++ ['_']) := by
    simp
  rw [h1, h2, listStartsWith_cancel] at hs
  have heq := digit_run_prefix (pyStrL i) (pyStrL j) (label ++ ".bin".toList)
    (pyStrL_all_digit i) (pyStrL_all_digit j) hs
  exact hij (pyStrL_injective heq)

theorem writeArtifact_key_files (dir : List (List Char)) (i : Nat) (l : List Char) :
    (writeArtifact dir i l).filter (fun f => matchesArtifactKey i f)
      = [artifactName i l] := by
  rw [writeArtifact, List.filter_append]
  have h1 : (dir.filter (fun f => !(matchesArtifactKey i f))).filter
      (fun f => matchesArtifactKey i f) = [] := by
    rw [List.filter_filter]
    apply List.filter_eq_nil_iff.mpr
    intro a _
    cases matchesArtifactKey i a <;> simp
  rw [h1, List.filter_cons, if_pos (matchesArtifactKey_self i l)]
  rfl

theorem takeWhile_len_le {α : Type} (p : α → Bool) (l : List α) :
    (l.takeWhile p).length ≤ l.length := by
  induction l with
  | nil => exact Nat.le_refl 0
  | cons a t ih =>
    rw [List.takeWhile_cons]
    split
    · simpa using ih
    · simp

theorem runLoop_spec (events : List IdEvent) :
    ∀ cur id dir,
      (runLoop cur id events dir).1 = loopExitId cur id events ∧
      (runLoop cur id events dir).2.1
        = List.range' id ((events.takeWhile notFatal).length) := by
  induction events with
  | nil =>
    intro cur id dir
    exact ⟨rfl, rfl⟩
  | cons e rest ih =>
    intro cur id dir
    cases e with
    | fatal =>
      refine ⟨?_, ?_⟩
      · simp only [runLoop, loopExitId, List.takeWhile_cons, notFatal,
          List.length_cons]
        simp
      · simp only [runLoop, List.takeWhile_cons, notFatal]
        simp
    | raises =>
      have h1 := ih id (id + 1) dir
      have hk := takeWhile_len_le notFatal rest
      refine ⟨?_, ?_⟩
      · simp only [runLoop, h1.1, loopExitId, List.takeWhile_cons, notFatal,
          List.length_cons, if_true, List.length_nil]
        split_ifs <;> first | contradiction | omega
      · simp only [runLoop, h1.2, List.takeWhile_cons, notFatal, if_true,
          List.length_cons]
        rw [List.range'_succ id _ 1]
    | completes data label =>
      have hk := takeWhile_len_le notFatal rest
      refine ⟨?_, ?_⟩
      · simp only [runLoop, loopExitId, List.takeWhile_cons, notFatal,
          List.length_cons, if_true, List.length_nil]
        rw [(ih id (id + 1) _).1, loopExitId]
        split_ifs <;> first | contradiction | omega
      · simp only [runLoop, List.takeWhile_cons, notFatal, if_true,
          List.length_cons]
        rw [(ih id (id + 1) _).2, List.range'_succ id _ 1]

theorem eventsOf_append_one (tr : List SessionEvent) (e : SessionEvent) (t : Nat) :
    eventsOf (tr ++ [e]) t
      = eventsOf tr t ++ (if e.1 = t then [e] else []) := by
  rw [eventsOf, List.filter_append, eventsOf]
  congr 1
  rw [List.filter_cons]
  by_cases h : e.1 = t
  · rw [if_pos h, if_pos (by simp [h])]
    rfl
  · rw [if_neg h, if_neg (by simp [h])]
    rfl

theorem split_unique {α : Type} [DecidableEq α] (x : α) :
    ∀ (l1 l2 m1 m2 : List α), l1 ++ x :: l2 = m1 ++ x :: m2 →
      x ∉ l1 → x ∉ m1 → l1 = m1 ∧ l2 = m2 := by
  intro l1
  induction l1 with
  | nil =>
    intro l2 m1 m2 h hx1 hx2
    cases m1 with
    | nil =>
      simp only [List.nil_append] at h
      injection h with _ h2
      exact ⟨rfl, h2⟩
    | cons b t =>
      simp only [List.nil_append, List.cons_append] at h
      injection h with h1 _
      exact absurd (h1 ▸ List.mem_cons_self b t) hx2
  | cons a s ih =>
    intro l2 m1 m2 h hx1 hx2
    cases m1 with
    | nil =>
      simp only [List.cons_append, List.nil_append] at h
      injection h with h1 _
      exact absurd (h1.symm ▸ List.mem_cons_self a s) hx1
    | cons b t =>
      simp only [List.cons_append] at h
      injection h with h1 h2
      subst h1
      obtain ⟨e1, e2⟩ := ih l2 t m2 h2
        (fun hm => hx1 (List.mem_cons_of_mem _ hm))
        (fun hm => hx2 (List.mem_cons_of_mem _ hm))
      exact ⟨by rw [e1], e2⟩

theorem noForeign_append_non_extract (tr : List SessionEvent) (e : SessionEvent)
    (hnf : NoForeign tr) (hne : e.2 ≠ SessionAct.extract) :
    NoForeign (tr ++ [e]) := by
  intro t l1 l2 l3 h
  rcases List.eq_nil_or_concat l3 with rfl | ⟨l3', z, rfl⟩
  · have h2 : tr ++ [e] = (l1 ++ (t, SessionAct.navigate) :: l2) ++ [(t, SessionAct.extract)] := by
      simp [h]
    obtain ⟨_, h4⟩ := List.append_inj' h2 rfl
    injection h4 with h5 _
    exact absurd (by rw [h5] : e.2 = SessionAct.extract) hne
  · rw [List.concat_eq_append] at h
    have h2 : tr ++ [e]
        = (l1 ++ (t, SessionAct.navigate) :: l2 ++ (t, SessionAct.extract) :: l3') ++ [z] := by
      rw [h]
      simp
    obtain ⟨h3, _⟩ := List.append_inj' h2 rfl
    exact hnf t l1 l2 l3' h3

theorem count_nav_eq_one (tr : List SessionEvent) (t : Nat)
    (h : eventsOf tr t = [(t, SessionAct.navigate), (t, SessionAct.settle)]) :
    tr.count (t, SessionAct.navigate) = 1 := by
  have h1 : ((t, SessionAct.navigate) : SessionEvent).1 == t := by simp
  have h2 := List.count_filter (p := fun e : SessionEvent => e.1 == t)
    (a := (t, SessionAct.navigate)) (l := tr) h1
  rw [eventsOf] at h
  rw [h] at h2
  rw [← h2]
  rw [List.count_cons_self, List.count_cons_of_ne (by simp), List.count_nil]

theorem not_mem_of_count_split (x : SessionEvent) (tr l1 l2 : List SessionEvent)
    (hdec : tr = l1 ++ x :: l2) (hc : tr.count x = 1) : x ∉ l1 := by
  intro hx
  rw [hdec, List.count_append, List.count_cons_self] at hc
  have : 1 ≤ l1.count x := List.count_pos_iff.mpr hx
  omega

theorem lockRun_inv (s : LockState) (tr : List SessionEvent) (h : LockRun s tr) :
    LockInv s tr ∧ NoForeign tr := by
  induction h with
  | init =>
    refine ⟨⟨?_, ?_, ?_⟩, ?_⟩
    · intro t
      simp [initLock]
    · intro t
      simp [initLock, eventsOf, stint]
    · intro t hown
      simp [initLock] at hown
    · intro t l1 l2 l3 hdec
      have hlen := congrArg List.length hdec
      simp at hlen
      omega
  | step s s' tr ev hrun hstep ih =>
    obtain ⟨⟨inv1, inv2, inv3⟩, nf⟩ := ih
    cases hstep with
    | acquire t hpc hl =>
      rw [List.append_nil]
      refine ⟨⟨?_, ?_, ?_⟩, nf⟩
      · intro u
        by_cases hu : u = t
        · subst hu
          simp [setPc]
        · have old := inv1 u
          rw [hl] at old
          simp only [setPc]
          rw [if_neg hu]
          constructor
          · intro hp
            exact absurd (old.mp hp) (by simp)
          · intro he
            exact absurd (Option.some.inj he) (fun x => hu x.symm)
      · intro u
        by_cases hu : u = t
        · subst hu
          have old := inv2 u
          rw [hpc] at old
          rw [old]
          simp [setPc, stint]
        · simp only [setPc]
          rw [if_neg hu]
          exact inv2 u
      · intro u hown hpc2
        have hu : u = t := (Option.some.inj hown).symm
        subst hu
        simp [setPc] at hpc2
    | navigate t hpc hl =>
      refine ⟨⟨?_, ?_, ?_⟩, ?_⟩
      · intro u
        by_cases hu : u = t
        · subst hu
          simp only [setPc, if_pos rfl]
          rw [hl]
          simp
        · simp only [setPc]
          rw [if_neg hu]
          exact inv1 u
      · intro u
        rw [eventsOf_append_one]
        by_cases hu : u = t
        · subst hu
          have old := inv2 u
          rw [hpc] at old
          rw [old]
          simp [setPc, stint]
        · rw [if_neg (fun x => hu x.symm), List.append_nil]
          simp only [setPc]
          rw [if_neg hu]
          exact inv2 u
      · intro u hown hpc2
        have hu : u = t := by
          rw [hl] at hown
          exact (Option.some.inj hown).symm
        subst hu
        exact ⟨tr, [], rfl, by simp⟩
      · exact noForeign_append_non_extract tr _ nf (fun hx => SessionAct.noConfusion hx)
    | settle t hpc hl =>
      refine ⟨⟨?_, ?_, ?_⟩, ?_⟩
      · intro u
        by_cases hu : u = t
        · subst hu
          simp only [setPc, if_pos rfl]
          rw [hl]
          simp
        · simp only [setPc]
          rw [if_neg hu]
          exact inv1 u
      · intro u
        rw [eventsOf_append_one]
        by_cases hu : u = t
        · subst hu
          have old := inv2 u
          rw [hpc] at old
          rw [old]
          simp [setPc, stint]
        · rw [if_neg (fun x => hu x.symm), List.append_nil]
          simp only [setPc]
          rw [if_neg hu]
          exact inv2 u
      · intro u hown hpc2
        have hu : u = t := by
          rw [hl] at hown
          exact (Option.some.inj hown).symm
        subst hu
        obtain ⟨l1, l2, hdec, hall⟩ := inv3 u hl (by omega)
        refine ⟨l1, l2 ++ [(u, SessionAct.settle)], by simp [hdec], ?_⟩
        intro e he
        rcases List.mem_append.mp he with he1 | he2
        · exact hall e he1
        · rw [List.mem_singleton.mp he2]
      · exact noForeign_append_non_extract tr _ nf (fun hx => SessionAct.noConfusion hx)
    | extract t hpc hl =>
      refine ⟨⟨?_, ?_, ?_⟩, ?_⟩
      · intro u
        by_cases hu : u = t
        · subst hu
          simp only [setPc, if_pos rfl]
          rw [hl]
          simp
        · simp only [setPc]
          rw [if_neg hu]
          exact inv1 u
      · intro u
        rw [eventsOf_append_one]
        by_cases hu : u = t
        · subst hu
          have old := inv2 u
          rw [hpc] at old
          rw [old]
          simp [setPc, stint]
        · rw [if_neg (fun x => hu x.symm), List.append_nil]
          simp only [setPc]
          rw [if_neg hu]
          exact inv2 u
      · intro u hown hpc2
        have hu : u = t := by
          rw [hl] at hown
          exact (Option.some.inj hown).symm
        subst hu
        obtain ⟨l1, l2, hdec, hall⟩ := inv3 u hl (by omega)
        refine ⟨l1, l2 ++ [(u, SessionAct.extract)], by simp [hdec], ?_⟩
        intro e he
        rcases List.mem_append.mp he with he1 | he2
        · exact hall e he1
        · rw [List.mem_singleton.mp he2]
      · intro t' l1 l2 l3 hdec
        rcases List.eq_nil_or_concat l3 with rfl | ⟨l3', z, rfl⟩
        · have h2 : tr ++ [(t, SessionAct.extract)]
              = (l1 ++ (t', SessionAct.navigate) :: l2) ++ [(t', SessionAct.extract)] := by
            simp [hdec]
          obtain ⟨h3, h4⟩ := List.append_inj' h2 rfl
          have ht : t' = t := by
            injection h4 with h5 _
            exact (congrArg Prod.fst h5).symm
          subst ht
          obtain ⟨m1, m2, hm, hall⟩ := inv3 t' hl (by omega)
          have hstint := inv2 t'
          rw [hpc] at hstint
          have hcount := count_nav_eq_one tr t' (by rw [hstint]; rfl)
          obtain ⟨e1, e2⟩ := split_unique (t', SessionAct.navigate) l1 l2 m1 m2
            (h3.symm.trans hm)
            (not_mem_of_count_split _ tr l1 l2 h3 hcount)
            (not_mem_of_count_split _ tr m1 m2 hm hcount)
          subst e2
          exact List.all_eq_true.mpr (fun e he => by
            rw [beq_iff_eq]
            exact hall e he)
        · rw [List.concat_eq_append] at hdec
          have h2 : tr ++ [(t, SessionAct.extract)]
              = (l1 ++ (t', SessionAct.navigate) :: l2 ++ (t', SessionAct.extract) :: l3')
                ++ [z] := by
            simp [hdec]
          obtain ⟨h3, _⟩ := List.append_inj' h2 rfl
          exact nf t' l1 l2 l3' h3
    | release t hpc hl =>
      rw [List.append_nil]
      refine ⟨⟨?_, ?_, ?_⟩, nf⟩
      · intro u
        by_cases hu : u = t
        · subst hu
          simp [setPc]
        · have old := inv1 u
          simp only [setPc]
          rw [if_neg hu]
          constructor
          · intro hp
            have := old.mp hp
            rw [hl] at this
            exact absurd (Option.some.inj this) (fun x => hu x.symm)
          · intro he
            exact absurd he (by simp)
      · intro u
        by_cases hu : u = t
        · subst hu
          have old := inv2 u
          rw [hpc] at old
          rw [old]
          simp [setPc, stint]
        · simp only [setPc]
          rw [if_neg hu]
          exact inv2 u
      · intro u hown
        exact absurd hown (by simp)

/-! ### Supporting lemmas tying validation to `extract_anime_urls` -/

/-- When validation fails (body wait failed, or empty/missing title), the
function returns `None` and the identifier is skipped. -/
theorem extract_skip_of_invalid (testing : Bool) (pg : AnimePage)
    (fetch : Nat → Option String) (comp : List Nat)
    (h : page_valid pg = false) :
    (extract_anime_urls testing pg fetch comp).1 = none := by
  rcases hb : pg.bodyLoads with _ | _
  · rw [extract_anime_urls, if_pos hb]
  · rw [page_valid, hb] at h
    simp only [Bool.true_and, decide_eq_false_iff_not, not_not] at h
    rw [extract_anime_urls, if_neg (by rw [hb]; simp)]
    simp [h]

/-! ## Claim theorems -/

/-- C1, counterexample: with episodes `[1, 2]` resolving URLs `u1`, `u2` but
the pool completing them in the order `[2, 1]` — a legal completion order,
witnessed by the permutation conjunct — the payload that app.py 239 joins is
`ep_num_2_url_data_u2,ep_num_1_url_data_u1`, not the episode-number-ordered
string the claim requires: the code concatenates in completion order and
never re-sorts. -/
theorem c1_counterexample :
    ([2, 1] : List Nat).Perm (List.range' 1 2) ∧
    joinEntries (([2, 1] : List Nat).filterMap
        (fun ep => fetch_episode_threadsafe ep
          (if ep = 1 then some "u1" else if ep = 2 then some "u2" else none)))
      = "ep_num_2_url_data_u2,ep_num_1_url_data_u1" ∧
    ("ep_num_2_url_data_u2,ep_num_1_url_data_u1" : String)
      ≠ "ep_num_1_url_data_u1,ep_num_2_url_data_u2" := by
  refine ⟨by decide, by decide, by decide⟩

/-- C1, amended: the artifact payload is the comma-join of the entry tokens in
the order the episode fetches complete; it equals the payload ordered by
episode number exactly when the completion order is itself sorted.  Formally:
any sorted completion order that is a permutation of the episode range
`1 .. n` yields the episode-number-ordered payload. -/
theorem c1_payload_order (n : Nat) (fetch : Nat → Option String)
    (completion : List Nat) (hperm : completion.Perm (List.range' 1 n))
    (hsort : completion.Sorted (· < ·)) :
    joinEntries (completion.filterMap
        (fun ep => fetch_episode_threadsafe ep (fetch ep)))
      = joinEntries ((List.range' 1 n).filterMap
          (fun ep => fetch_episode_threadsafe ep (fetch ep))) := by
  have hr : List.Sorted (· < ·) (List.range' 1 n) := List.pairwise_lt_range' 1 n
  rw [List.eq_of_perm_of_sorted hperm hsort hr]

/-- C1 witness: the sorted completion order `[1, 2]` of the range `1 .. 2`. -/
theorem c1_payload_order_witness :
    joinEntries (([1, 2] : List Nat).filterMap
        (fun ep => fetch_episode_threadsafe ep
          (if ep = 1 then some "u1" else if ep = 2 then some "u2" else none)))
      = joinEntries ((List.range' 1 2).filterMap
          (fun ep => fetch_episode_threadsafe ep
            (if ep = 1 then some "u1" else if ep = 2 then some "u2" else none))) :=
  c1_payload_order 2 _ [1, 2] (by decide) (by decide)

/-- C2, counterexample: when no attempt's content matches the pattern,
`extract_video_url` returns Python `None` (modelled `none`), not the string
`"not found"` the claim requires. -/
theorem c2_counterexample :
    extract_video_url (fun _ => "no media links here") 10 = none ∧
    (none : Option String) ≠ some "not found" :=
  ⟨by decide, by decide⟩

/-- C2, amended: over the budget of 10 attempts, the first attempt whose
rendered content contains a pattern match (`searchMedia`, the embedding of
`pattern.search` at app.py 70/75) determines the result — that leftmost match
is returned as soon as it is found; if all 10 attempts find no match the
function returns `none` (Python `None`), not the string `"not found"`. -/
theorem c2_first_match_or_none (page : Nat → String) :
    (∀ n m, n < 10 → (∀ j, j < n → searchMedia (page j).toList = none) →
      searchMedia (page n).toList = some m →
      extract_video_url page 10 = some (String.mk m)) ∧
    ((∀ j, j < 10 → searchMedia (page j).toList = none) →
      extract_video_url page 10 = none) := by
  constructor
  · intro n m hn hb hm
    exact extractLoop_found page 10 0 n m (Nat.zero_le n) (by omega)
      (fun j _ hj => hb j hj) hm
  · intro hall
    exact extractLoop_exhaust page 10 0 (fun j _ hj => hall j (by omega))

/-- C2 witness: the spec's example content yields exactly
`https://cdn.example/x.m3u8` on the first attempt. -/
theorem c2_first_match_witness :
    extract_video_url (fun _ => "play https://cdn.example/x.m3u8 now") 10
      = some "https://cdn.example/x.m3u8" := by
  have h := (c2_first_match_or_none (fun _ => "play https://cdn.example/x.m3u8 now")).1
    0 "https://cdn.example/x.m3u8".toList (by decide)
    (fun j hj => absurd hj (Nat.not_lt_zero j))
    (by decide)
  exact h.trans (by decide)

/-- C3: `get_total_episodes` returns the maximum of the upper bounds over all
option labels matching the range pattern (a fold of `max` over the parsed
upper bounds), `0` when the control is absent or no label matches, and `24`
on the spec's example `["EPS 1-12", "EPS 1-24"]`. -/
theorem c3_total_episodes_max :
    get_total_episodes none = 0 ∧
    get_total_episodes (some ["EPS 1-12", "EPS 1-24"]) = 24 ∧
    (∀ opts, get_total_episodes (some opts)
      = (opts.filterMap (fun t => searchRange (pyStripL t.toList))).foldl max 0) ∧
    (∀ opts, (∀ t ∈ opts, searchRange (pyStripL t.toList) = none) →
      get_total_episodes (some opts) = 0) := by
  have key : ∀ (opts : List String) (a : Nat),
      opts.foldl
        (fun max_ep text =>
          match searchRange (pyStripL text.toList) with
          | some upper => if upper > max_ep then upper else max_ep
          | none => max_ep) a
      = (opts.filterMap (fun t => searchRange (pyStripL t.toList))).foldl max a := by
    intro opts
    induction opts with
    | nil => intro a; rfl
    | cons t rest ih =>
      intro a
      rw [List.foldl_cons, List.filterMap_cons]
      cases h : searchRange (pyStripL t.toList) with
      | none => rw [ih]
      | some u =>
        rw [List.foldl_cons, ih]
        congr 1
        show (if u > a then u else a) = max a u
        rw [Nat.max_def]
        split_ifs <;> omega
  refine ⟨rfl, by decide, ?_, ?_⟩
  · intro opts
    exact key opts 0
  · intro opts hnone
    rw [get_total_episodes, key opts 0]
    rw [List.filterMap_eq_nil_iff.mpr (fun t ht => hnone t ht)]
    rfl

/-- C3 witness: a label list where no label matches the range pattern
resolves to zero episodes. -/
theorem c3_total_episodes_witness :
    get_total_episodes (some ["Movie", "Special"]) = 0 :=
  c3_total_episodes_max.2.2.2 ["Movie", "Special"] (by decide)

/-- C5: saving checkpoint `k` and loading it back yields `k`, for every
non-negative integer `k` and every prior content of the progress file. -/
theorem c5_checkpoint_roundtrip (k : Nat) (fs : Option String) :
    load_progress (save_progress k fs) = k := by
  rw [save_progress, load_progress]
  have hl : (pyStr k).toList = pyStrL k := rfl
  rw [hl, pyStripL_of_all_digit _ (pyStrL_all_digit k), pyParseNat_pyStrL]

/-- C4, counterexample: a rendered content containing a not-found signature
does not make the validator return Invalid — the code never inspects the
content for such a signature; with a non-empty title the page is Valid, and
extraction proceeds (returns a non-`None` value). -/
theorem c4_counterexample :
    containsNotFoundSignature c4Page.content = true ∧
    page_valid c4Page = true ∧
    (extract_anime_urls TESTING_FLAG c4Page (fun _ => some "u") [1]).1
      = some ["ep_num_1_url_data_u"] := by
  refine ⟨by decide, by decide, by decide⟩

/-- C4, amended: the validator returns Invalid exactly when navigation/wait
failed or the title element is absent or has empty text; a not-found
signature in the content forces Invalid only when the page also lacks a
non-empty title (which is how real not-found pages are rejected). -/
theorem c4_invalid_characterization (pg : AnimePage) :
    (containsNotFoundSignature pg.content = true →
      pyStrip (pg.epTitle.getD "") = "" → page_valid pg = false) ∧
    (page_valid pg = false ↔
      (pg.bodyLoads = false ∨ pyStrip (pg.epTitle.getD "") = "")) := by
  constructor
  · intro _ ht
    rw [page_valid, ht]
    simp
  · rw [page_valid]
    cases pg.bodyLoads <;> simp

/-- C4 witness: a loaded page whose content says "not found" and whose title
is empty is Invalid. -/
theorem c4_invalid_witness :
    page_valid ⟨true, none, "not found", none⟩ = false :=
  (c4_invalid_characterization ⟨true, none, "not found", none⟩).1
    (by decide) (by decide)

/-- C6: writing an artifact for identifier `i` twice in the same run — with
any two elapsed-time labels — leaves exactly one file keyed by `i` (prefix
`anime_<i>_`, suffix `.bin`) in the output directory: each write deletes
every file keyed by `i` before writing the new artifact (app.py 251-257). -/
theorem c6_artifact_unique (dir : List (List Char)) (i : Nat) (l1 l2 : List Char) :
    ((writeArtifact (writeArtifact dir i l1) i l2).filter
      (fun f => matchesArtifactKey i f)).length = 1 := by
  rw [writeArtifact_key_files]
  rfl

/-- C7, counterexample: with the `KEYS` environment variable absent, the
startup notification (app.py 219, before the `try` at 224) raises out of
`main`: the process ends without any checkpoint write and without closing a
session, refuting "no error of any kind ends the process without first
attempting to write the checkpoint ... and close the browser session". -/
theorem c7_counterexample :
    (main_run false true 5 [IdEvent.raises]).saves = [] ∧
    (main_run false true 5 [IdEvent.raises]).closed = false :=
  ⟨rfl, rfl⟩

/-- C7, amended: once the protected region is reached (the startup
notification succeeded), the guarantee holds.  With the driver initialized,
the checkpoint list is exactly the identifiers of all non-fatally-ending
iterations in order — so an iteration whose stage raises (`IdEvent.raises`)
still checkpoints its identifier before the loop advances — followed by the
`finally`'s save of the last-touched identifier, and the session is closed.
If the driver itself fails to initialize, the `finally` still checkpoints
`START_ID` and there is no session to close.  Failures before the `try`
(env parsing, output-dir creation, the startup notification) abort with no
checkpoint, as the counterexample shows. -/
theorem c7_checkpoint_on_failure (start : Nat) (events : List IdEvent) :
    (main_run true true start events).saves
      = List.range' start ((events.takeWhile notFatal).length)
        ++ [loopExitId start start events] ∧
    (main_run true true start events).closed = true ∧
    (main_run true false start events).saves = [start] ∧
    (main_run true false start events).closed = false := by
  refine ⟨?_, rfl, rfl, rfl⟩
  show (runLoop start start events []).2.1 ++ [(runLoop start start events []).1] = _
  rw [(runLoop_spec events start start []).1, (runLoop_spec events start start []).2]

/-- C8, counterexample: with the source's `TESTING_FLAG = False` (app.py 26),
an Invalid page (navigation timeout) triggers no Debug Capture at all: the
debug-reason list is empty even though the validator rejected the page. -/
theorem c8_counterexample :
    page_valid c8Page = false ∧
    (extract_anime_urls TESTING_FLAG c8Page (fun _ => none) []).1 = none ∧
    (extract_anime_urls TESTING_FLAG c8Page (fun _ => none) []).2 = [] := by
  refine ⟨by decide, by decide, by decide⟩

/-- C8, amended: Debug Capture on Invalid is gated by the global testing
flag.  With the flag enabled, a navigation failure captures with reason
"Page load failed" and an empty/missing title captures with reason
"No .ep-title element or empty title" (the code has no not-found-signature
reason); with the flag at its shipped value `False`, no Invalid outcome
triggers any capture. -/
theorem c8_debug_capture_gated (pg : AnimePage) (fetch : Nat → Option String)
    (comp : List Nat) :
    (pg.bodyLoads = false →
      (extract_anime_urls true pg fetch comp).2 = ["Page load failed"]) ∧
    (pg.bodyLoads = true → pyStrip (pg.epTitle.getD "") = "" →
      (extract_anime_urls true pg fetch comp).2
        = ["No .ep-title element or empty title"]) ∧
    (extract_anime_urls TESTING_FLAG pg fetch comp).2 = [] := by
  refine ⟨?_, ?_, ?_⟩
  · intro h
    rw [extract_anime_urls, if_pos h]
    rfl
  · intro hb ht
    rw [extract_anime_urls, if_neg (by rw [hb]; simp)]
    simp [ht]
  · simp only [extract_anime_urls, TESTING_FLAG]
    split_ifs <;> first | rfl | contradiction

/-- C8 witness: with the flag enabled, a page whose body wait failed produces
the "Page load failed" capture. -/
theorem c8_debug_capture_witness :
    (extract_anime_urls true ⟨false, none, "", none⟩
      (fun _ => none) []).2 = ["Page load failed"] :=
  (c8_debug_capture_gated ⟨false, none, "", none⟩ (fun _ => none) []).1 rfl

/-- C9: in every schedule of the per-episode fetch tasks against the shared
session (every `LockRun` of the lock semantics modelling
`fetch_episode_threadsafe`, whose `with driver_lock:` spans navigate, settle
and extract), every event logged strictly between a task's navigate and its
extract belongs to that same task — in particular no other episode performs a
navigation there, so the navigate-settle-extract sequences of two episodes
never interleave. -/
theorem c9_no_interleave (s : LockState) (tr : List SessionEvent)
    (hrun : LockRun s tr) (t : Nat) (l1 l2 l3 : List SessionEvent)
    (hdec : tr = l1 ++ (t, SessionAct.navigate) :: l2
      ++ (t, SessionAct.extract) :: l3) :
    l2.all (fun e => e.1 == t) = true :=
  (lockRun_inv s tr hrun).2 t l1 l2 l3 hdec

/-- C9 witness: a concrete two-task schedule — task 1 runs its whole block,
releases, task 2 acquires and navigates — applied to the theorem at the
decomposition around task 1's navigate and extract. -/
theorem c9_no_interleave_witness :
    ([(1, SessionAct.settle)] : List SessionEvent).all (fun e => e.1 == 1) = true := by
  have h0 : LockRun initLock [] := LockRun.init
  have h1 := LockRun.step _ _ _ _ h0 (LockStep.acquire initLock 1 rfl rfl)
  have h2 := LockRun.step _ _ _ _ h1 (LockStep.navigate _ 1 rfl rfl)
  have h3 := LockRun.step _ _ _ _ h2 (LockStep.settle _ 1 rfl rfl)
  have h4 := LockRun.step _ _ _ _ h3 (LockStep.extract _ 1 rfl rfl)
  have h5 := LockRun.step _ _ _ _ h4 (LockStep.release _ 1 rfl rfl)
  have h6 := LockRun.step _ _ _ _ h5 (LockStep.acquire _ 2 rfl rfl)
  have h7 := LockRun.step _ _ _ _ h6 (LockStep.navigate _ 2 rfl rfl)
  exact c9_no_interleave _ _ h7 1 [] [(1, SessionAct.settle)]
    [(2, SessionAct.navigate)] (by decide)

/-- C10: writing an artifact for identifier `i` never deletes an artifact
file of a different positive identifier `j`: the deletion test
`startswith("anime_<i>_") and endswith(".bin")` cannot match
`anime_<j>_<label>.bin` when `j ≠ i`, because a decimal digit run followed by
`_` determines the digit run. -/
theorem c10_frame_other_ids (i j : Nat) (hij : i ≠ j) (_hi : 0 < i) (_hj : 0 < j)
    (label lab2 : List Char) (dir : List (List Char))
    (hmem : artifactName j label ∈ dir) :
    artifactName j label ∈ writeArtifact dir i lab2 := by
  rw [writeArtifact]
  apply List.mem_append_left
  rw [List.mem_filter]
  refine ⟨hmem, ?_⟩
  rw [matchesArtifactKey_other i j label hij]
  rfl

/-- C10 witness: a write for identifier 1 leaves identifier 2's artifact in
place. -/
theorem c10_frame_other_ids_witness :
    artifactName 2 "3.0s".toList
      ∈ writeArtifact [artifactName 2 "3.0s".toList] 1 "4.2s".toList :=
  c10_frame_other_ids 1 2 (by decide) (by decide) (by decide)
    "3.0s".toList "4.2s".toList [artifactName 2 "3.0s".toList]
    (List.mem_singleton.mpr rfl)

end FetchM3u8

